import Mathlib

/-!
# Verification of the rbx-proxy request decision pipeline

A shallow embedding of the rbx-proxy repository's components
(AddressMatcher, OriginGate, HostnameRouter, RuleEngine, TelemetryForwarder,
Logger, TypeConverters, Walkers) together with proofs of the specified
properties.  Components whose code is not present in the repository snapshot
(only their configuration, rule files and collaborators are) are modelled
from the design specification; their doc comments say so explicitly.
Machine integers are modelled as `Nat` with explicit widths.
-/

/-! ## Bit-mask arithmetic for CIDR matching -/

/-- The network mask of width `w` with the top `p` bits set:
`mask w p = 2^w - 2^(w-p)`.  For `p = 0` this is `0`; for `p = w` it is
`2^w - 1`. -/
def mask (w p : Nat) : Nat := 2 ^ w - 2 ^ (w - p)

theorem mask_eq_mul (w p : Nat) (hp : p ≤ w) :
    mask w p = 2 ^ (w - p) * (2 ^ p - 1) := by
  unfold mask
  have hsplit : 2 ^ w = 2 ^ (w - p) * 2 ^ p := by
    rw [← pow_add]
    congr 1
    omega
  rw [hsplit]
  obtain ⟨k, hk⟩ : ∃ k, 2 ^ p = k + 1 :=
    ⟨2 ^ p - 1, by have := Nat.one_le_two_pow (n := p); omega⟩
  rw [hk, Nat.mul_add, Nat.mul_one, Nat.add_sub_cancel, Nat.add_sub_cancel]

/-- ANDing an address below `2^w` with the top-`p`-bits mask zeroes the low
`w - p` bits, i.e. equals rounding down to a multiple of `2^(w-p)`. -/
theorem and_mask_eq (w p a : Nat) (hp : p ≤ w) (ha : a < 2 ^ w) :
    a &&& mask w p = a / 2 ^ (w - p) * 2 ^ (w - p) := by
  apply Nat.eq_of_testBit_eq
  intro i
  rw [Nat.testBit_and, mask_eq_mul w p hp, Nat.testBit_mul_pow_two,
    Nat.testBit_two_pow_sub_one,
    Nat.mul_comm (a / 2 ^ (w - p)), ← Nat.shiftRight_eq_div_pow,
    Nat.testBit_mul_pow_two, Nat.testBit_shiftRight]
  by_cases hik : w - p ≤ i
  · simp only [ge_iff_le, hik, decide_True, Bool.true_and]
    have hsum : (w - p) + (i - (w - p)) = i := by omega
    rw [hsum]
    by_cases hiw : i < w
    · have : i - (w - p) < p := by omega
      simp [this]
    · have hfa : a.testBit i = false := by
        apply Nat.testBit_lt_two_pow
        calc a < 2 ^ w := ha
          _ ≤ 2 ^ i := Nat.pow_le_pow_right (by omega) (by omega)
      have : ¬ (i - (w - p) < p) := by omega
      simp [this, hfa]
  · simp [hik]

/-- Under the normalization invariant on `b` (its host bits are zero), the
masked comparison `a &&& mask w p = b` says exactly that the top `p` bits of
`a` and `b` agree. -/
theorem and_mask_eq_iff (w p a b : Nat) (hp : p ≤ w) (ha : a < 2 ^ w)
    (hb : b < 2 ^ w) (hnorm : b &&& mask w p = b) :
    (a &&& mask w p = b) ↔ a / 2 ^ (w - p) = b / 2 ^ (w - p) := by
  have hbeq : b / 2 ^ (w - p) * 2 ^ (w - p) = b := by
    rw [← and_mask_eq w p b hp hb, hnorm]
  rw [and_mask_eq w p a hp ha]
  constructor
  · intro h
    have : a / 2 ^ (w - p) * 2 ^ (w - p) = b / 2 ^ (w - p) * 2 ^ (w - p) := by
      rw [h, hbeq]
    exact Nat.eq_of_mul_eq_mul_right (Nat.two_pow_pos _) this
  · intro h
    rw [h, hbeq]

/-! ## AddressMatcher (modelled from the spec) -/

/-- A parsed client address: IPv4 (32 bits) or IPv6 (128 bits), the bits
stored as a `Nat`. -/
inductive IPAddr where
  | v4 (bits : Nat)
  | v6 (bits : Nat)
deriving DecidableEq, Repr

def IPAddr.isV6 : IPAddr → Bool
  | .v4 _ => false
  | .v6 _ => true

def IPAddr.bits : IPAddr → Nat
  | .v4 b => b
  | .v6 b => b

def IPAddr.width (a : IPAddr) : Nat := if a.isV6 then 128 else 32

/-- Well-formedness: the stored bits fit in the address family's width. -/
def IPAddr.wf (a : IPAddr) : Prop := a.bits < 2 ^ a.width

instance (a : IPAddr) : Decidable a.wf := by unfold IPAddr.wf; infer_instance

/-- A configured CIDR range: family flag, base address bits,
prefix length. -/
structure CIDRRange where
  isV6 : Bool
  base : Nat
  prefixLen : Nat
deriving DecidableEq, Repr

def CIDRRange.width (r : CIDRRange) : Nat := if r.isV6 then 128 else 32

/-- Well-formedness (the spec's construction invariant): the prefix length is
within the family's width, the base fits the width, and the base's host bits
below the prefix are zero-masked (normalized form). -/
def CIDRRange.wf (r : CIDRRange) : Prop :=
  r.prefixLen ≤ r.width ∧ r.base < 2 ^ r.width ∧
    r.base &&& mask r.width r.prefixLen = r.base

instance (r : CIDRRange) : Decidable r.wf := by
  unfold CIDRRange.wf; infer_instance

/-- Modelled from the spec: `AddressMatcher.Matches` for a single range.
The AddressMatcher component is not present in the repository snapshot; the
spec gives its algorithm as: same family required (no mapped-address
coercion), then `address AND mask(prefixLength) == range.base`. -/
def AddressMatcher.Matches (a : IPAddr) (r : CIDRRange) : Bool :=
  (a.isV6 == r.isV6) && (a.bits &&& mask r.width r.prefixLen == r.base)

/-- The top `p` bits of a `w`-bit value, as a number. -/
def topBits (bits w p : Nat) : Nat := bits >>> (w - p)

theorem width_eq_of_isV6_eq (a : IPAddr) (r : CIDRRange)
    (h : a.isV6 = r.isV6) : a.width = r.width := by
  unfold IPAddr.width CIDRRange.width
  rw [h]

/-- C1: `AddressMatcher.Matches(A, R)` is true iff A and R share an address
family and the top `R.prefixLength` bits of A equal those of R's base; a
family mismatch always yields false; and prefix length 0 matches every
address of the range's family. -/
theorem AddressMatcher.Matches_spec (a : IPAddr) (r : CIDRRange)
    (hwa : a.wf) (hwr : r.wf) :
    (AddressMatcher.Matches a r = true ↔
      a.isV6 = r.isV6 ∧
        topBits a.bits r.width r.prefixLen = topBits r.base r.width r.prefixLen)
    ∧ (a.isV6 ≠ r.isV6 → AddressMatcher.Matches a r = false)
    ∧ (r.prefixLen = 0 → a.isV6 = r.isV6 → AddressMatcher.Matches a r = true) := by
  obtain ⟨hp, hbase, hnorm⟩ := hwr
  refine ⟨?_, ?_, ?_⟩
  · simp only [AddressMatcher.Matches, Bool.and_eq_true, beq_iff_eq]
    constructor
    · rintro ⟨hfam, hbits⟩
      refine ⟨hfam, ?_⟩
      have hwidth := width_eq_of_isV6_eq a r hfam
      have ha : a.bits < 2 ^ r.width := by rw [← hwidth]; exact hwa
      unfold topBits
      rw [Nat.shiftRight_eq_div_pow, Nat.shiftRight_eq_div_pow]
      exact (and_mask_eq_iff r.width r.prefixLen a.bits r.base hp ha hbase
        hnorm).mp hbits
    · rintro ⟨hfam, htop⟩
      refine ⟨hfam, ?_⟩
      have hwidth := width_eq_of_isV6_eq a r hfam
      have ha : a.bits < 2 ^ r.width := by rw [← hwidth]; exact hwa
      apply (and_mask_eq_iff r.width r.prefixLen a.bits r.base hp ha hbase
        hnorm).mpr
      unfold topBits at htop
      rw [Nat.shiftRight_eq_div_pow, Nat.shiftRight_eq_div_pow] at htop
      exact htop
  · intro hfam
    simp only [AddressMatcher.Matches, Bool.and_eq_false_iff, beq_eq_false_iff_ne]
    exact Or.inl hfam
  · intro hzero hfam
    simp only [AddressMatcher.Matches, Bool.and_eq_true, beq_iff_eq]
    refine ⟨hfam, ?_⟩
    have hmask : mask r.width r.prefixLen = 0 := by
      unfold mask
      rw [hzero]
      simp
    have hb0 : r.base = 0 := by
      rw [hmask] at hnorm
      simpa using hnorm.symm
    rw [hmask, hb0]
    simp

/-- Witness for C1 at a concrete address and range: 5 = 0.0.0.5 against the
IPv4 range 0.0.0.4/30. -/
theorem AddressMatcher.Matches_spec_witness :
    (IPAddr.v4 5).wf ∧ (CIDRRange.mk false 4 30).wf ∧
    ((AddressMatcher.Matches (IPAddr.v4 5) (CIDRRange.mk false 4 30) = true ↔
      (IPAddr.v4 5).isV6 = (CIDRRange.mk false 4 30).isV6 ∧
        topBits (IPAddr.v4 5).bits (CIDRRange.mk false 4 30).width 30 =
          topBits 4 (CIDRRange.mk false 4 30).width 30)
    ∧ ((IPAddr.v4 5).isV6 ≠ (CIDRRange.mk false 4 30).isV6 →
        AddressMatcher.Matches (IPAddr.v4 5) (CIDRRange.mk false 4 30) = false)
    ∧ (30 = 0 → (IPAddr.v4 5).isV6 = (CIDRRange.mk false 4 30).isV6 →
        AddressMatcher.Matches (IPAddr.v4 5) (CIDRRange.mk false 4 30) = true)) :=
  ⟨by decide, by decide,
    AddressMatcher.Matches_spec (IPAddr.v4 5) (CIDRRange.mk false 4 30)
      (by decide) (by decide)⟩

/-! ## OriginGate (modelled from the spec) -/

/-- Modelled from the spec: matching an address against an ordered allow-list,
short-circuiting on the first hit. -/
def AddressMatcher.MatchesAny (a : IPAddr) (ranges : List CIDRRange) : Bool :=
  ranges.any (fun r => AddressMatcher.Matches a r)

/-- The process-wide access-control configuration snapshot. -/
structure AccessPolicy where
  allowedIPv4 : List CIDRRange
  allowedIPv6 : List CIDRRange
  hateLanAccess : Bool
  abortConnectionIfInvalidIp : Bool
  disableIPv6 : Bool
deriving DecidableEq, Repr

/-- Conventional private/loopback/link-local IPv4 ranges
(127.0.0.0/8, 10.0.0.0/8, 172.16.0.0/12, 192.168.0.0/16, 169.254.0.0/16). -/
def privateIPv4Ranges : List CIDRRange :=
  [⟨false, 0x7F000000, 8⟩, ⟨false, 0x0A000000, 8⟩, ⟨false, 0xAC100000, 12⟩,
   ⟨false, 0xC0A80000, 16⟩, ⟨false, 0xA9FE0000, 16⟩]

/-- Conventional loopback/unique-local/link-local IPv6 ranges
(::1/128, fc00::/7, fe80::/10). -/
def privateIPv6Ranges : List CIDRRange :=
  [⟨true, 1, 128⟩, ⟨true, 0xfc00 * 2 ^ 112, 7⟩, ⟨true, 0xfe80 * 2 ^ 112, 10⟩]

/-- Whether an address falls in a conventional private/loopback/link-local
("LAN") range. -/
def isPrivateAddr (a : IPAddr) : Bool :=
  if a.isV6 then AddressMatcher.MatchesAny a privateIPv6Ranges
  else AddressMatcher.MatchesAny a privateIPv4Ranges

/-- Outcome of origin admission. -/
inductive Decision where
  | Admit
  | Reject
  | Abort
deriving DecidableEq, Repr

/-- Modelled from the spec: `OriginGate.Evaluate` decision table.  The
OriginGate component is not present in the repository snapshot; the spec
gives: (1) IPv6 with IPv6 disabled → Reject; (2) LAN traffic auto-admitted
unless `hateLanAccess`; (3) otherwise the family's allow-list decides;
(4) violations become Abort or Reject per the abort-mode flag. -/
def OriginGate.Evaluate (p : AccessPolicy) (a : IPAddr) : Decision :=
  if a.isV6 && p.disableIPv6 then .Reject
  else if !p.hateLanAccess && isPrivateAddr a then .Admit
  else if AddressMatcher.MatchesAny a
      (if a.isV6 then p.allowedIPv6 else p.allowedIPv4) then .Admit
  else if p.abortConnectionIfInvalidIp then .Abort else .Reject

theorem MatchesAny_append_left (a : IPAddr) (l₁ l₂ : List CIDRRange)
    (h : AddressMatcher.MatchesAny a l₁ = true) :
    AddressMatcher.MatchesAny a (l₁ ++ l₂) = true := by
  simp only [AddressMatcher.MatchesAny, List.any_append, Bool.or_eq_true]
  exact Or.inl h

/-- C3: OriginGate is monotonic in the allow-list.  If every address matched
by the first policy's allow-lists is matched by the second's, and the other
flags agree, then an Admit under the first policy is an Admit under the
second. -/
theorem OriginGate.Evaluate_monotone (p₁ p₂ : AccessPolicy) (a : IPAddr)
    (hlan : p₁.hateLanAccess = p₂.hateLanAccess)
    (habort : p₁.abortConnectionIfInvalidIp = p₂.abortConnectionIfInvalidIp)
    (hdis : p₁.disableIPv6 = p₂.disableIPv6)
    (hcov4 : ∀ b : IPAddr, AddressMatcher.MatchesAny b p₁.allowedIPv4 = true →
      AddressMatcher.MatchesAny b p₂.allowedIPv4 = true)
    (hcov6 : ∀ b : IPAddr, AddressMatcher.MatchesAny b p₁.allowedIPv6 = true →
      AddressMatcher.MatchesAny b p₂.allowedIPv6 = true)
    (hadm : OriginGate.Evaluate p₁ a = .Admit) :
    OriginGate.Evaluate p₂ a = .Admit := by
  unfold OriginGate.Evaluate at hadm ⊢
  rw [hlan, habort, hdis] at hadm
  by_cases h1 : (a.isV6 && p₂.disableIPv6) = true
  · simp [h1] at hadm
  · simp only [h1, if_false, Bool.false_eq_true] at hadm ⊢
    by_cases h2 : (!p₂.hateLanAccess && isPrivateAddr a) = true
    · simp [h2]
    · simp only [h2, if_false, Bool.false_eq_true] at hadm ⊢
      by_cases h3 : AddressMatcher.MatchesAny a
          (if a.isV6 then p₁.allowedIPv6 else p₁.allowedIPv4) = true
      · have h3' : AddressMatcher.MatchesAny a
            (if a.isV6 then p₂.allowedIPv6 else p₂.allowedIPv4) = true := by
          cases hv : a.isV6 with
          | false => simp only [hv, if_false, Bool.false_eq_true] at h3 ⊢
                     exact hcov4 a h3
          | true => simp only [hv, if_true] at h3 ⊢
                    exact hcov6 a h3
        simp [h3']
      · simp only [h3, if_false, Bool.false_eq_true] at hadm
        by_cases h4 : p₂.abortConnectionIfInvalidIp = true <;>
          simp [h4] at hadm

/-- Witness for C3: widening the IPv4 allow-list of a concrete policy keeps
1.2.3.4 admitted. -/
theorem OriginGate.Evaluate_monotone_witness :
    OriginGate.Evaluate
      ⟨[⟨false, 0x01020300, 24⟩], [], true, false, false⟩
      (IPAddr.v4 0x01020304) = .Admit ∧
    OriginGate.Evaluate
      ⟨[⟨false, 0x01020300, 24⟩, ⟨false, 0x0A000000, 8⟩], [], true, false, false⟩
      (IPAddr.v4 0x01020304) = .Admit :=
  ⟨by decide,
    OriginGate.Evaluate_monotone
      ⟨[⟨false, 0x01020300, 24⟩], [], true, false, false⟩
      ⟨[⟨false, 0x01020300, 24⟩, ⟨false, 0x0A000000, 8⟩], [], true, false, false⟩
      (IPAddr.v4 0x01020304) rfl rfl rfl
      (fun b h => MatchesAny_append_left b [⟨false, 0x01020300, 24⟩]
        [⟨false, 0x0A000000, 8⟩] h)
      (fun _ h => h) (by decide)⟩

/-! ## Client-address parsing and the fail-closed gate (modelled from the spec) -/

/-- Splits a character list at every occurrence of the separator. -/
def splitOnChar (sep : Char) : List Char → List (List Char)
  | [] => [[]]
  | c :: rest =>
    let r := splitOnChar sep rest
    if c = sep then [] :: r
    else
      match r with
      | [] => [[c]]
      | h :: t => (c :: h) :: t

/-- Splits a character list at the first occurrence of a double colon,
when present. -/
def splitOnDoubleColon : List Char → Option (List Char × List Char)
  | ':' :: ':' :: rest => some ([], rest)
  | c :: rest => (splitOnDoubleColon rest).map (fun p => (c :: p.1, p.2))
  | [] => none

/-- Decimal value of a digit string. -/
def digitsVal (l : List Char) : Nat :=
  l.foldl (fun acc c => acc * 10 + (c.toNat - 48)) 0

/-- A valid dotted-quad octet: one to three decimal digits, value at
most 255. -/
def okOctet (p : List Char) : Bool :=
  decide (1 ≤ p.length) && decide (p.length ≤ 3) && p.all Char.isDigit &&
    decide (digitsVal p ≤ 255)

/-- Modelled from the spec: parsing a dotted-quad IPv4 address into its
32-bit value.  The actual parser lives in the external `@mfdlabs/net`
collaborator. -/
def parseIPv4 (s : String) : Option Nat :=
  let parts := splitOnChar '.' s.data
  if decide (parts.length = 4) && parts.all okOctet then
    some (parts.foldl (fun acc p => acc * 256 + digitsVal p) 0)
  else none

def hexDigitVal (c : Char) : Nat :=
  if c.isDigit then c.toNat - 48
  else if 'a' ≤ c ∧ c ≤ 'f' then c.toNat - 87
  else c.toNat - 55

def hexVal (l : List Char) : Nat :=
  l.foldl (fun acc c => acc * 16 + hexDigitVal c) 0

/-- A valid IPv6 group: one to four hexadecimal digits. -/
def okHexGroup (p : List Char) : Bool :=
  decide (1 ≤ p.length) && decide (p.length ≤ 4) &&
    p.all (fun c => c.isDigit || ('a' ≤ c && c ≤ 'f') || ('A' ≤ c && c ≤ 'F'))

def groupsVal (gs : List (List Char)) : Nat :=
  gs.foldl (fun acc g => acc * 65536 + hexVal g) 0

/-- Modelled from the spec: parsing a colon-separated IPv6 address (with at
most one `::` compression) into its 128-bit value.  The actual parser lives
in the external `@mfdlabs/net` collaborator. -/
def parseIPv6 (s : String) : Option Nat :=
  match splitOnDoubleColon s.data with
  | none =>
    let parts := splitOnChar ':' s.data
    if decide (parts.length = 8) && parts.all okHexGroup then
      some (groupsVal parts)
    else none
  | some (l, r) =>
    let lparts := if l.isEmpty then [] else splitOnChar ':' l
    let rparts := if r.isEmpty then [] else splitOnChar ':' r
    if decide (lparts.length + rparts.length ≤ 7) && lparts.all okHexGroup &&
        rparts.all okHexGroup then
      some (groupsVal lparts * 2 ^ (16 * (8 - lparts.length)) + groupsVal rparts)
    else none

/-- Modelled from the spec: a client address string parses as IPv4 or IPv6,
or fails. -/
def parseAddress (s : String) : Option IPAddr :=
  match parseIPv4 s with
  | some b => some (.v4 b)
  | none => (parseIPv6 s).map .v6

/-- Modelled from the spec: the pipeline's origin admission on the raw client
address string — an unparseable address is treated as an OriginGate
violation (fails closed), a parsed one goes through the decision table. -/
def OriginGate.EvaluateRaw (p : AccessPolicy) (raw : String) : Decision :=
  match parseAddress raw with
  | none => if p.abortConnectionIfInvalidIp then .Abort else .Reject
  | some a => OriginGate.Evaluate p a

/-- C5: an unparseable client address fails closed: the outcome is Abort in
abort mode and Reject otherwise, and is never Admit. -/
theorem OriginGate.EvaluateRaw_failClosed (p : AccessPolicy) (raw : String)
    (h : parseAddress raw = none) :
    OriginGate.EvaluateRaw p raw ≠ .Admit ∧
    (p.abortConnectionIfInvalidIp = true →
      OriginGate.EvaluateRaw p raw = .Abort) ∧
    (p.abortConnectionIfInvalidIp = false →
      OriginGate.EvaluateRaw p raw = .Reject) := by
  unfold OriginGate.EvaluateRaw
  rw [h]
  by_cases hab : p.abortConnectionIfInvalidIp = true
  · simp [hab]
  · simp only [Bool.not_eq_true] at hab
    simp [hab]

/-- Witness for C5 at the concrete unparseable address "not-an-ip". -/
theorem OriginGate.EvaluateRaw_failClosed_witness :
    parseAddress "not-an-ip" = none ∧
    OriginGate.EvaluateRaw ⟨[], [], true, true, false⟩ "not-an-ip" ≠ .Admit ∧
    OriginGate.EvaluateRaw ⟨[], [], true, true, false⟩ "not-an-ip" = .Abort :=
  ⟨by decide,
    (OriginGate.EvaluateRaw_failClosed ⟨[], [], true, true, false⟩ "not-an-ip"
      (by decide)).1,
    (OriginGate.EvaluateRaw_failClosed ⟨[], [], true, true, false⟩ "not-an-ip"
      (by decide)).2.1 rfl⟩

/-! ## HostnameRouter (modelled from the spec) -/

/-- A routing directive: a registered "test" domain suffix and the production
target it rewrites to. -/
structure RouteDirective where
  testSuffix : String
  target : String
deriving DecidableEq, Repr

/-- A host header matches a directive when the directive's test-domain suffix
is a suffix of the host. -/
def hostMatches (host : String) (d : RouteDirective) : Bool :=
  d.testSuffix.data.isSuffixOf host.data

/-- Rewriting a matched host: the part of the host preceding the matched
suffix is kept in front of the production target. -/
def rewriteHost (host : String) (d : RouteDirective) : String :=
  ⟨host.data.take (host.length - d.testSuffix.length) ++ d.target.data⟩

/-- One step of the longest-suffix search: keep the matching directive with
the longer suffix. -/
def bestStep (host : String) (best : Option RouteDirective)
    (d : RouteDirective) : Option RouteDirective :=
  if hostMatches host d then
    match best with
    | none => some d
    | some b =>
      if b.testSuffix.length < d.testSuffix.length then some d
      else some b
  else best

/-- The longest-suffix match among the registered directives. -/
def bestMatch (ds : List RouteDirective) (host : String) :
    Option RouteDirective :=
  ds.foldl (bestStep host) none

/-- Modelled from the spec: `HostnameRouter.Resolve`.  The HostnameRouter
component is not present in the repository snapshot; the spec gives: a
configured override upstream is returned unconditionally; otherwise the
longest-suffix matching directive rewrites the host, preserving the part
preceding the matched suffix; with no match the host passes through
unchanged. -/
def HostnameRouter.Resolve (overrideUpstream : Option String)
    (ds : List RouteDirective) (host : String) : String :=
  match overrideUpstream with
  | some u => u
  | none =>
    match bestMatch ds host with
    | some d => rewriteHost host d
    | none => host

theorem bestStep_some (host : String) (acc : Option RouteDirective)
    (e d : RouteDirective) (h : bestStep host acc e = some d) :
    acc = some d ∨ (d = e ∧ hostMatches host e = true) := by
  unfold bestStep at h
  by_cases hm : hostMatches host e = true
  · simp only [hm, if_true] at h
    cases acc with
    | none => right; exact ⟨(Option.some_inj.mp h).symm, hm⟩
    | some b =>
      by_cases hlt : b.testSuffix.length < e.testSuffix.length
      · simp only [hlt, if_true] at h
        right; exact ⟨(Option.some_inj.mp h).symm, hm⟩
      · simp only [hlt, if_false] at h
        left; exact h.symm ▸ rfl
  · simp only [Bool.not_eq_true] at hm
    simp only [hm, Bool.false_eq_true, if_false] at h
    left; exact h

theorem bestStep_keeps (host : String) (acc : Option RouteDirective)
    (e b : RouteDirective) (h : acc = some b) :
    ∃ d, bestStep host acc e = some d ∧
      b.testSuffix.length ≤ d.testSuffix.length := by
  subst h
  unfold bestStep
  by_cases hm : hostMatches host e = true
  · by_cases hlt : b.testSuffix.length < e.testSuffix.length
    · exact ⟨e, by simp [hm, hlt], Nat.le_of_lt hlt⟩
    · exact ⟨b, by simp [hm, hlt], Nat.le_refl _⟩
  · simp only [Bool.not_eq_true] at hm
    exact ⟨b, by simp [hm], Nat.le_refl _⟩

theorem bestStep_takes (host : String) (acc : Option RouteDirective)
    (e : RouteDirective) (hm : hostMatches host e = true) :
    ∃ d, bestStep host acc e = some d ∧
      e.testSuffix.length ≤ d.testSuffix.length := by
  unfold bestStep
  cases acc with
  | none => exact ⟨e, by simp [hm], Nat.le_refl _⟩
  | some b =>
    by_cases hlt : b.testSuffix.length < e.testSuffix.length
    · exact ⟨e, by simp [hm, hlt], Nat.le_refl _⟩
    · exact ⟨b, by simp [hm, hlt], Nat.le_of_not_lt hlt⟩

theorem bestMatch_aux (host : String) : ∀ (ds : List RouteDirective)
    (acc : Option RouteDirective),
    (∀ d, List.foldl (bestStep host) acc ds = some d →
      acc = some d ∨ (d ∈ ds ∧ hostMatches host d = true))
    ∧ (∀ b, acc = some b → ∃ d, List.foldl (bestStep host) acc ds = some d ∧
        b.testSuffix.length ≤ d.testSuffix.length)
    ∧ (∀ d', d' ∈ ds → hostMatches host d' = true →
        ∃ d, List.foldl (bestStep host) acc ds = some d ∧
          d'.testSuffix.length ≤ d.testSuffix.length) := by
  intro ds
  induction ds with
  | nil =>
    intro acc
    refine ⟨fun d h => Or.inl h, fun b h => ⟨b, h, Nat.le_refl _⟩, ?_⟩
    intro d' hd'
    exact absurd hd' (List.not_mem_nil d')
  | cons e rest ih =>
    intro acc
    have step : List.foldl (bestStep host) acc (e :: rest) =
        List.foldl (bestStep host) (bestStep host acc e) rest := rfl
    refine ⟨?_, ?_, ?_⟩
    · intro d h
      rw [step] at h
      rcases (ih (bestStep host acc e)).1 d h with h1 | h1
      · rcases bestStep_some host acc e d h1 with h2 | ⟨rfl, hm2⟩
        · exact Or.inl h2
        · exact Or.inr ⟨List.mem_cons_self _ _, hm2⟩
      · exact Or.inr ⟨List.mem_cons_of_mem e h1.1, h1.2⟩
    · intro b hb
      obtain ⟨d₀, hd₀, hle₀⟩ := bestStep_keeps host acc e b hb
      obtain ⟨d, hd, hle⟩ := (ih (bestStep host acc e)).2.1 d₀ hd₀
      exact ⟨d, step ▸ hd, Nat.le_trans hle₀ hle⟩
    · intro d' hd' hm
      rcases List.mem_cons.mp hd' with h1 | h1
      · subst h1
        obtain ⟨d₀, hd₀, hle₀⟩ := bestStep_takes host acc d' hm
        obtain ⟨d, hd, hle⟩ := (ih (bestStep host acc d')).2.1 d₀ hd₀
        exact ⟨d, step ▸ hd, Nat.le_trans hle₀ hle⟩
      · obtain ⟨d, hd, hle⟩ := (ih (bestStep host acc e)).2.2 d' h1 hm
        exact ⟨d, step ▸ hd, hle⟩

/-- C2: with an override upstream configured, `Resolve` returns the override
for every host; `Resolve("www.test.example.com")` with the directive
`{test.example.com -> example.com}` returns `"www.example.com"`; with no
matching directive the host passes through unchanged; and a found match is a
registered, matching directive of maximal suffix length, applied by
suffix-replacing rewrite. -/
theorem HostnameRouter.Resolve_spec :
    (∀ (u : String) (ds : List RouteDirective) (host : String),
      HostnameRouter.Resolve (some u) ds host = u)
    ∧ HostnameRouter.Resolve none [⟨"test.example.com", "example.com"⟩]
        "www.test.example.com" = "www.example.com"
    ∧ (∀ (ds : List RouteDirective) (host : String),
        (∀ d ∈ ds, hostMatches host d = false) →
          HostnameRouter.Resolve none ds host = host)
    ∧ (∀ (ds : List RouteDirective) (host : String) (d : RouteDirective),
        bestMatch ds host = some d →
          HostnameRouter.Resolve none ds host = rewriteHost host d ∧
          d ∈ ds ∧ hostMatches host d = true ∧
          ∀ d' ∈ ds, hostMatches host d' = true →
            d'.testSuffix.length ≤ d.testSuffix.length) := by
  refine ⟨fun u ds host => rfl, by decide, ?_, ?_⟩
  · intro ds host hnone
    unfold HostnameRouter.Resolve
    have : bestMatch ds host = none := by
      rcases h : bestMatch ds host with _ | d
      · rfl
      · rcases (bestMatch_aux host ds none).1 d h with h1 | h1
        · exact absurd h1 (by simp)
        · rw [hnone d h1.1] at h1
          exact absurd h1.2 (by simp)
    rw [this]
  · intro ds host d h
    have hmem := (bestMatch_aux host ds none).1 d h
    simp only [reduceCtorEq, false_or] at hmem
    refine ⟨?_, hmem.1, hmem.2, ?_⟩
    · unfold HostnameRouter.Resolve
      rw [h]
    · intro d' hd' hm
      obtain ⟨d₀, hd₀, hle⟩ := (bestMatch_aux host ds none).2.2 d' hd' hm
      rw [bestMatch] at h
      rw [hd₀] at h
      exact Option.some_inj.mp h ▸ hle

/-- Witness for C2: the override, pass-through and longest-match cases at
concrete inputs. -/
theorem HostnameRouter.Resolve_spec_witness :
    HostnameRouter.Resolve (some "arc.local") [] "www.roblox.com" = "arc.local"
    ∧ HostnameRouter.Resolve none [⟨"test.example.com", "example.com"⟩]
        "unknown.host" = "unknown.host"
    ∧ HostnameRouter.Resolve none [⟨"test.example.com", "example.com"⟩]
        "www.test.example.com" =
          rewriteHost "www.test.example.com" ⟨"test.example.com", "example.com"⟩ :=
  ⟨HostnameRouter.Resolve_spec.1 "arc.local" [] "www.roblox.com",
    (HostnameRouter.Resolve_spec.2.2.1 [⟨"test.example.com", "example.com"⟩]
      "unknown.host" (by decide)),
    (HostnameRouter.Resolve_spec.2.2.2 [⟨"test.example.com", "example.com"⟩]
      "www.test.example.com" ⟨"test.example.com", "example.com"⟩ (by decide)).1⟩

/-! ## RuleEngine rule loading (modelled from the spec and the rule-file
comments shipped in the repository snapshot) -/

/-- One YAML rule entry as written in a rule file: every field but the
template may be omitted. -/
structure RawTemplateRule where
  template : String
  method : Option String
  statusCode : Option Nat
  body : Option String
  contentType : Option String
  headers : Option (List (String × String))
deriving DecidableEq, Repr

/-- A rule with all defaults resolved. -/
structure TemplateRule where
  template : String
  method : String
  statusCode : Nat
  body : String
  contentType : String
  headers : List (String × String)
deriving DecidableEq, Repr

/-- Modelled from the spec: loading one YAML rule entry resolves omitted
fields to fixed defaults.  The rule-file comments in the repository snapshot
state them: `method` defaults to ALL (matches any method), `statusCode` to
200, `body` to the empty string, `contentType` to `text/html`, `headers` to
the empty map. -/
def loadRule (r : RawTemplateRule) : TemplateRule :=
  { template := r.template
    method := r.method.getD "ALL"
    statusCode := r.statusCode.getD 200
    body := r.body.getD ""
    contentType := r.contentType.getD "text/html"
    headers := r.headers.getD [] }

/-- Modelled from the spec: the configured method is uppercase-compared to
the request method, and the wildcard ALL matches any method. -/
def methodMatches (rule : TemplateRule) (reqMethod : String) : Bool :=
  rule.method == "ALL" || rule.method == reqMethod

/-- C6: omitted `TemplateRule` fields resolve to fixed defaults —
statusCode 200, empty body, `text/html` content type, no extra headers —
and an omitted method matches any HTTP method. -/
theorem loadRule_defaults (r : RawTemplateRule) :
    (r.statusCode = none → (loadRule r).statusCode = 200)
    ∧ (r.body = none → (loadRule r).body = "")
    ∧ (r.contentType = none → (loadRule r).contentType = "text/html")
    ∧ (r.headers = none → (loadRule r).headers = [])
    ∧ (r.method = none → ∀ m : String, methodMatches (loadRule r) m = true) := by
  refine ⟨fun h => ?_, fun h => ?_, fun h => ?_, fun h => ?_, fun h m => ?_⟩ <;>
    simp [loadRule, methodMatches, h]

/-- Witness for C6 on the rule entry with every optional field omitted. -/
theorem loadRule_defaults_witness :
    (loadRule ⟨"/test/v1/uri/hello", none, none, none, none, none⟩).statusCode = 200
    ∧ (loadRule ⟨"/test/v1/uri/hello", none, none, none, none, none⟩).body = ""
    ∧ (loadRule ⟨"/test/v1/uri/hello", none, none, none, none, none⟩).contentType
        = "text/html"
    ∧ (loadRule ⟨"/test/v1/uri/hello", none, none, none, none, none⟩).headers = []
    ∧ methodMatches (loadRule ⟨"/test/v1/uri/hello", none, none, none, none, none⟩)
        "DELETE" = true :=
  ⟨(loadRule_defaults _).1 rfl, (loadRule_defaults _).2.1 rfl,
    (loadRule_defaults _).2.2.1 rfl, (loadRule_defaults _).2.2.2.1 rfl,
    (loadRule_defaults _).2.2.2.2 rfl "DELETE"⟩

/-! ## GA4 validation messages (from
`src/Source/Library/GA4/Models/GA4ValidationMessage.ts`) -/

/-- Embedding of the `GA4ValidationMessage` class: a field path, a
human-readable description and a validation-failure code. -/
structure GA4ValidationMessage where
  fieldPath : String
  description : String
  validationCode : String
deriving DecidableEq, Repr

/-- C7: a validation message carries exactly the three fields `fieldPath`,
`description` and `validationCode`: every message is rebuilt from them, and
two messages agree exactly when the three fields agree. -/
theorem GA4ValidationMessage_fields (m : GA4ValidationMessage) :
    m = ⟨m.fieldPath, m.description, m.validationCode⟩
    ∧ ∀ m' : GA4ValidationMessage,
        (m = m' ↔ (m.fieldPath = m'.fieldPath ∧ m.description = m'.description ∧
          m.validationCode = m'.validationCode)) := by
  refine ⟨rfl, fun m' => ?_⟩
  constructor
  · rintro rfl
    exact ⟨rfl, rfl, rfl⟩
  · rintro ⟨h1, h2, h3⟩
    cases m
    cases m'
    simp only at h1 h2 h3
    rw [h1, h2, h3]

/-! ## TelemetryForwarder (modelled from the spec) -/

/-- One terminal pipeline outcome, as reported to the analytics collector. -/
structure TelemetryEvent where
  clientAddress : String
  host : String
  path : String
  matchedRule : Option String
  gateDecision : Decision
  httpStatus : Nat
deriving DecidableEq, Repr

/-- TelemetryForwarder configuration flags. -/
structure GA4ClientConfig where
  enabled : Bool
  enableValidation : Bool
  disableIpLogging : Bool
deriving DecidableEq, Repr

/-- Redaction replaces the client address with a fixed sentinel. -/
def redactEvent (e : TelemetryEvent) : TelemetryEvent :=
  { e with clientAddress := "[REDACTED]" }

/-- An outbound endpoint call made by the forwarder. -/
inductive TelemetryCall where
  | validation (e : TelemetryEvent)
  | measurement (e : TelemetryEvent)
deriving DecidableEq, Repr

/-- Modelled from the spec: `TelemetryForwarder.Report`, returning the
sequence of outbound endpoint calls it makes.  Disabled client: no calls.
Otherwise the event (redacted when IP logging is disabled) goes to the
validation endpoint first when validation mode is on; any returned
validation message means the event is logged locally as rejected and not
forwarded; otherwise it goes to the measurement endpoint. -/
def TelemetryForwarder.Report (cfg : GA4ClientConfig)
    (validate : TelemetryEvent → List GA4ValidationMessage)
    (e : TelemetryEvent) : List TelemetryCall :=
  if !cfg.enabled then []
  else
    let ev := if cfg.disableIpLogging then redactEvent e else e
    if cfg.enableValidation then
      if (validate ev).isEmpty then [.validation ev, .measurement ev]
      else [.validation ev]
    else [.measurement ev]

/-- C4: with validation mode enabled, an event for which the validation
endpoint returns at least one message is never sent to the measurement
endpoint. -/
theorem TelemetryForwarder.Report_validationGate (cfg : GA4ClientConfig)
    (validate : TelemetryEvent → List GA4ValidationMessage)
    (e : TelemetryEvent) (hv : cfg.enableValidation = true)
    (hmsgs : validate (if cfg.disableIpLogging then redactEvent e else e) ≠ []) :
    ∀ ev : TelemetryEvent,
      TelemetryCall.measurement ev ∉ TelemetryForwarder.Report cfg validate e := by
  intro ev
  unfold TelemetryForwarder.Report
  by_cases hen : cfg.enabled = true
  · have hne : (validate (if cfg.disableIpLogging then redactEvent e else e)).isEmpty
        = false := by
      rcases h : validate (if cfg.disableIpLogging then redactEvent e else e) with
        _ | ⟨x, xs⟩
      · exact absurd h hmsgs
      · rfl
    simp [hen, hv, hne]
  · simp only [Bool.not_eq_true] at hen
    simp [hen]

/-- Witness for C4: a concrete rejected event produces only a validation
call. -/
theorem TelemetryForwarder.Report_validationGate_witness :
    TelemetryCall.measurement ⟨"1.2.3.4", "h", "/p", none, Decision.Admit, 200⟩ ∉
      TelemetryForwarder.Report ⟨true, true, false⟩
        (fun _ => [⟨"events", "bad event name", "VALUE_INVALID"⟩])
        ⟨"1.2.3.4", "h", "/p", none, Decision.Admit, 200⟩ :=
  TelemetryForwarder.Report_validationGate ⟨true, true, false⟩
    (fun _ => [⟨"events", "bad event name", "VALUE_INVALID"⟩])
    ⟨"1.2.3.4", "h", "/p", none, Decision.Admit, 200⟩ rfl (by simp)
    ⟨"1.2.3.4", "h", "/p", none, Decision.Admit, 200⟩

/-! ## Logger file-state effects (from the Logger class in the repository
snapshot) -/

/-- The file-relevant state of one logger: whether it logs to the file
system, whether its write stream is open, and its current log file name. -/
structure LoggerHandle where
  name : String
  logToFileSystem : Bool
  streamOpen : Bool
  fileName : Option String
deriving DecidableEq, Repr

/-- The file-system state the Logger class touches: the files in the log
directory and the tracked loggers. -/
structure LogState where
  logDirectoryFiles : List String
  loggers : List LoggerHandle
deriving DecidableEq, Repr

/-- Embedding of `Logger._closeFileStream`: the stream is ended/destroyed and
the file name fields are cleared. -/
def closeFileStream (l : LoggerHandle) : LoggerHandle :=
  { l with streamOpen := false, fileName := none }

/-- Embedding of `Logger._createFileName` followed by
`Logger._createFileStream` (the fresh date/pid-based file name is a
parameter). -/
def createFileStream (newFileName : String) (l : LoggerHandle) : LoggerHandle :=
  { l with streamOpen := true, fileName := some newFileName }

/-- Embedding of `Logger.tryClearLocalLog` as its effect on file state: when
`persistLocalLogs` is set and the override flag is not passed, it returns
before touching anything; otherwise it closes every logger's stream, empties
the log directory, and recreates file streams for the loggers that log to
the file system.  Log-message side effects (which only append to streams)
are not modelled. -/
def Logger.tryClearLocalLog (persistLocalLogs : Bool) (newFileName : String)
    (override : Bool) (s : LogState) : LogState :=
  if persistLocalLogs && !override then s
  else
    let closed := s.loggers.map closeFileStream
    { logDirectoryFiles := []
      loggers := closed.map (fun l =>
        if l.logToFileSystem then createFileStream newFileName l else l) }

/-- C8: with `persistLocalLogs` on and the override flag not passed,
`tryClearLocalLog` leaves the log directory and every logger's stream
exactly as they were. -/
theorem Logger.tryClearLocalLog_persist (newFileName : String) (s : LogState) :
    Logger.tryClearLocalLog true newFileName false s = s := rfl

/-! ## Walkers (from `src/Source/Library/Setup/Walkers.ts`) -/

/-- A model file-system entry: a file, or a directory with named entries. -/
inductive FSEntry where
  | file
  | dir (entries : List (String × FSEntry))
deriving Repr

/-- Embedding of `Walkers.WalkDirectory` over the model file system: walks
the entries in order, recursing into directories and appending
`directoryName + "/" + entryName` for files (`path.join(directoryName, '/',
entryName)` equals that concatenation for separator-free names). -/
def Walkers.WalkDirectory (directoryName : String)
    (entries : List (String × FSEntry)) (paths : List String) : List String :=
  match entries with
  | [] => paths
  | (name, FSEntry.dir sub) :: rest =>
    Walkers.WalkDirectory directoryName rest
      (Walkers.WalkDirectory (directoryName ++ "/" ++ name) sub paths)
  | (name, FSEntry.file) :: rest =>
    Walkers.WalkDirectory directoryName rest
      (paths ++ [directoryName ++ "/" ++ name])

/-- Specification collector: the paths of exactly the file (non-directory)
nodes under a directory, in traversal order. -/
def filesUnder (directoryName : String) :
    List (String × FSEntry) → List String
  | [] => []
  | (name, FSEntry.dir sub) :: rest =>
    filesUnder (directoryName ++ "/" ++ name) sub ++ filesUnder directoryName rest
  | (name, FSEntry.file) :: rest =>
    (directoryName ++ "/" ++ name) :: filesUnder directoryName rest

/-- `FileAt dn entries p` holds exactly when `p` is the full path of a file
node reachable under the entries rooted at `dn`. -/
def FileAt (directoryName : String) :
    List (String × FSEntry) → String → Prop
  | [], _ => False
  | (name, FSEntry.dir sub) :: rest, p =>
    FileAt (directoryName ++ "/" ++ name) sub p ∨ FileAt directoryName rest p
  | (name, FSEntry.file) :: rest, p =>
    p = directoryName ++ "/" ++ name ∨ FileAt directoryName rest p

theorem WalkDirectory_eq_append (directoryName : String)
    (entries : List (String × FSEntry)) (paths : List String) :
    Walkers.WalkDirectory directoryName entries paths =
      paths ++ filesUnder directoryName entries := by
  induction directoryName, entries, paths using Walkers.WalkDirectory.induct with
  | case1 dn paths => simp [Walkers.WalkDirectory, filesUnder]
  | case2 dn name sub rest paths ih1 ih2 =>
    rw [Walkers.WalkDirectory, filesUnder, ih2, ih1, List.append_assoc]
  | case3 dn name rest paths ih =>
    rw [Walkers.WalkDirectory, filesUnder, ih, List.append_assoc]
    rfl

theorem mem_filesUnder (directoryName : String)
    (entries : List (String × FSEntry)) (p : String) :
    p ∈ filesUnder directoryName entries ↔ FileAt directoryName entries p := by
  induction directoryName, entries using filesUnder.induct with
  | case1 dn => simp [filesUnder, FileAt]
  | case2 dn name sub rest ih1 ih2 =>
    simp [filesUnder, FileAt, List.mem_append, ih1, ih2]
  | case3 dn name rest ih =>
    simp [filesUnder, FileAt, ih]

/-- C10: `Walkers.WalkDirectory` returns the passed accumulator followed by
exactly the file (non-directory) nodes reachable under the directory, all
nested files included; membership in the result coincides with being the
path of a file node. -/
theorem Walkers.WalkDirectory_spec :
    (∀ (directoryName : String) (entries : List (String × FSEntry))
        (paths : List String),
      Walkers.WalkDirectory directoryName entries paths =
        paths ++ filesUnder directoryName entries)
    ∧ (∀ (directoryName : String) (entries : List (String × FSEntry))
        (p : String),
      p ∈ Walkers.WalkDirectory directoryName entries [] ↔
        FileAt directoryName entries p) :=
  ⟨WalkDirectory_eq_append, fun dn entries p => by
    rw [WalkDirectory_eq_append dn entries [], List.nil_append]
    exact mem_filesUnder dn entries p⟩

/-! ## TypeConverters.toBoolean (from `src/unnamed/part_001`,
`type_converters.ts`) -/

/-- A JavaScript runtime value, as far as `toBoolean` can consume or produce
one.  JSON numerals are modelled exactly (integral values as `Int`;
non-integral numerals are outside the model and make the JSON parse fail —
a top-level numeral string never reaches the JSON branch anyway, because
`parseInt` accepts it first). -/
inductive JSValue where
  | bool (b : Bool)
  | num (n : Int)
  | str (s : String)
  | null
  | undefined
  | arr (elements : List JSValue)
  | obj (fields : List (String × JSValue))
deriving Repr

mutual
/-- Embedding of the JS `String()` coercion on the modelled values
(`parseInt` applies it to its argument). -/
def jsToString : JSValue → String
  | .bool b => cond b "true" "false"
  | .num n => toString n
  | .str s => s
  | .null => "null"
  | .undefined => "undefined"
  | .arr xs => jsListToString xs
  | .obj _ => "[object Object]"

/-- Array-to-string: elements joined with commas, null/undefined elements
rendered empty. -/
def jsListToString : List JSValue → String
  | [] => ""
  | [JSValue.null] => ""
  | [JSValue.undefined] => ""
  | [x] => jsToString x
  | JSValue.null :: rest => "," ++ jsListToString rest
  | JSValue.undefined :: rest => "," ++ jsListToString rest
  | x :: rest => jsToString x ++ "," ++ jsListToString rest
end

/-- JS whitespace skipped by `parseInt` (space, tab, newline, carriage
return, vertical tab, form feed). -/
def jsWhitespace (c : Char) : Bool :=
  c = ' ' || c = '\t' || c = '\n' || c = '\r' || c.toNat = 11 || c.toNat = 12

/-- Embedding of the JS builtin `parseInt(·, 10)`: skip leading whitespace,
an optional sign, then the longest run of decimal digits; no digits means
NaN (`none`). -/
def parseIntJS (s : String) : Option Int :=
  let l := s.data.dropWhile jsWhitespace
  let signAndRest : Int × List Char :=
    match l with
    | '-' :: r => (-1, r)
    | '+' :: r => (1, r)
    | _ => (1, l)
  let digits := signAndRest.2.takeWhile Char.isDigit
  if digits.isEmpty then none
  else some (signAndRest.1 * (digitsVal digits : Int))

/-- JSON whitespace. -/
def isJsonWs (c : Char) : Bool :=
  c = ' ' || c = '\t' || c = '\n' || c = '\r'

def hexDigit? (c : Char) : Option Nat :=
  if c.isDigit then some (c.toNat - 48)
  else if 'a' ≤ c && c ≤ 'f' then some (c.toNat - 87)
  else if 'A' ≤ c && c ≤ 'F' then some (c.toNat - 55)
  else none

/-- JSON string body after the opening quote: returns the decoded characters
and the remainder after the closing quote. -/
def parseJsonString (fuel : Nat) (l : List Char) : Option (List Char × List Char) :=
  match fuel, l with
  | 0, _ => none
  | _, [] => none
  | fuel + 1, c :: rest =>
    if c = '"' then some ([], rest)
    else if c = '\\' then
      match rest with
      | [] => none
      | e :: rest2 =>
        let cont := fun (ch : Char) (rem : List Char) =>
          (parseJsonString fuel rem).map (fun p => (ch :: p.1, p.2))
        if e = '"' then cont '"' rest2
        else if e = '\\' then cont '\\' rest2
        else if e = '/' then cont '/' rest2
        else if e = 'b' then cont (Char.ofNat 8) rest2
        else if e = 'f' then cont (Char.ofNat 12) rest2
        else if e = 'n' then cont '\n' rest2
        else if e = 'r' then cont '\r' rest2
        else if e = 't' then cont '\t' rest2
        else if e = 'u' then
          match rest2 with
          | h1 :: h2 :: h3 :: h4 :: rest3 =>
            match hexDigit? h1, hexDigit? h2, hexDigit? h3, hexDigit? h4 with
            | some a, some b, some c2, some d =>
              cont (Char.ofNat (((a * 16 + b) * 16 + c2) * 16 + d)) rest3
            | _, _, _, _ => none
          | _ => none
        else none
    else if c.toNat < 32 then none
    else (parseJsonString fuel rest).map (fun p => (c :: p.1, p.2))

/-- Optional JSON fraction part: digits after a dot, or nothing. -/
def parseFrac (l : List Char) : Option (List Char × List Char) :=
  match l with
  | '.' :: r =>
    let ds := r.takeWhile Char.isDigit
    if ds.isEmpty then none else some (ds, r.dropWhile Char.isDigit)
  | _ => some ([], l)

/-- Optional JSON exponent part: its signed value, or 0 when absent. -/
def parseExp (l : List Char) : Option (Int × List Char) :=
  match l with
  | c :: r =>
    if c = 'e' || c = 'E' then
      let signAndRest : Int × List Char :=
        match r with
        | '+' :: rr => (1, rr)
        | '-' :: rr => (-1, rr)
        | _ => (1, r)
      let ds := signAndRest.2.takeWhile Char.isDigit
      if ds.isEmpty then none
      else some (signAndRest.1 * (digitsVal ds : Int),
        signAndRest.2.dropWhile Char.isDigit)
    else some (0, l)
  | [] => some (0, [])

/-- A JSON numeral, accepted when its value is integral. -/
def parseJsonNumber (l : List Char) : Option (Int × List Char) :=
  let negAndRest : Bool × List Char :=
    match l with
    | '-' :: r => (true, r)
    | _ => (false, l)
  let intDigits := negAndRest.2.takeWhile Char.isDigit
  if intDigits.isEmpty then none
  else if 2 ≤ intDigits.length ∧ intDigits.head? = some '0' then none
  else
    match parseFrac (negAndRest.2.dropWhile Char.isDigit) with
    | none => none
    | some (fracDigits, l2) =>
      match parseExp l2 with
      | none => none
      | some (e, l3) =>
        let m : Nat := digitsVal (intDigits ++ fracDigits)
        let e10 : Int := e - fracDigits.length
        if 0 ≤ e10 then
          let n : Int := (m : Int) * 10 ^ e10.toNat
          some (if negAndRest.1 then -n else n, l3)
        else
          let k := (-e10).toNat
          if m % 10 ^ k = 0 then
            let n : Int := ((m / 10 ^ k : Nat) : Int)
            some (if negAndRest.1 then -n else n, l3)
          else none

mutual
/-- Embedding of the JS builtin `JSON.parse` (value grammar): literals,
strings, integral numerals, arrays and objects. -/
def parseJsonValue (fuel : Nat) (l : List Char) : Option (JSValue × List Char) :=
  match fuel with
  | 0 => none
  | fuel + 1 =>
    match l.dropWhile isJsonWs with
    | 't' :: 'r' :: 'u' :: 'e' :: r => some (.bool true, r)
    | 'f' :: 'a' :: 'l' :: 's' :: 'e' :: r => some (.bool false, r)
    | 'n' :: 'u' :: 'l' :: 'l' :: r => some (.null, r)
    | '"' :: r => (parseJsonString fuel r).map (fun p => (.str ⟨p.1⟩, p.2))
    | '[' :: r =>
      match r.dropWhile isJsonWs with
      | ']' :: r2 => some (.arr [], r2)
      | _ => (parseJsonElems fuel r).map (fun p => (.arr p.1, p.2))
    | '{' :: r =>
      match r.dropWhile isJsonWs with
      | '}' :: r2 => some (.obj [], r2)
      | _ => (parseJsonMembers fuel r).map (fun p => (.obj p.1, p.2))
    | rest => (parseJsonNumber rest).map (fun p => (JSValue.num p.1, p.2))

/-- Comma-separated array elements up to the closing bracket. -/
def parseJsonElems (fuel : Nat) (l : List Char) :
    Option (List JSValue × List Char) :=
  match fuel with
  | 0 => none
  | fuel + 1 =>
    match parseJsonValue fuel l with
    | none => none
    | some (v, r) =>
      match r.dropWhile isJsonWs with
      | ',' :: r2 => (parseJsonElems fuel r2).map (fun p => (v :: p.1, p.2))
      | ']' :: r2 => some ([v], r2)
      | _ => none

/-- Comma-separated object members up to the closing brace. -/
def parseJsonMembers (fuel : Nat) (l : List Char) :
    Option (List (String × JSValue) × List Char) :=
  match fuel with
  | 0 => none
  | fuel + 1 =>
    match l.dropWhile isJsonWs with
    | '"' :: r =>
      match parseJsonString fuel r with
      | none => none
      | some (key, r2) =>
        match r2.dropWhile isJsonWs with
        | ':' :: r3 =>
          match parseJsonValue fuel r3 with
          | none => none
          | some (v, r4) =>
            match r4.dropWhile isJsonWs with
            | ',' :: r5 =>
              (parseJsonMembers fuel r5).map (fun p => ((⟨key⟩, v) :: p.1, p.2))
            | '}' :: r5 => some ([(⟨key⟩, v)], r5)
            | _ => none
        | _ => none
    | _ => none
end

/-- Embedding of `JSON.parse` on a whole string: one value, surrounded only
by whitespace. -/
def jsonParse (s : String) : Option JSValue :=
  match parseJsonValue (s.length + 1) s.data with
  | none => none
  | some (v, rest) => if (rest.dropWhile isJsonWs).isEmpty then some v else none

/-- ASCII lowercasing, the JS `toLowerCase` on the strings of interest. -/
def lowerStr (s : String) : String := ⟨s.data.map Char.toLower⟩

/-- Embedding of `TypeConverters.toBoolean`: booleans pass through; a
`parseInt` of the stringified value that is not NaN decides by `> 0`;
otherwise non-strings return the default (`false` when none was supplied),
and strings are lowercased and JSON-parsed, a parse failure returning the
default.  The return type is `JSValue` because `JSON.parse` can hand back a
non-boolean which the function returns as-is. -/
def TypeConverters.toBoolean (value : JSValue) (defaultValue : Option Bool) :
    JSValue :=
  match value with
  | .bool b => .bool b
  | v =>
    match parseIntJS (jsToString v) with
    | some n => .bool (decide (0 < n))
    | none =>
      let defaultReturn := defaultValue.getD false
      match v with
      | .str s =>
        match jsonParse (lowerStr s) with
        | some j => j
        | none => .bool defaultReturn
      | _ => .bool defaultReturn

/-- All sixteen case-variants of the string `true`. -/
def trueVariants : List String :=
  ["true", "truE", "trUe", "trUE", "tRue", "tRuE", "tRUe", "tRUE", "True",
   "TruE", "TrUe", "TrUE", "TRue", "TRuE", "TRUe", "TRUE"]

/-- All thirty-two case-variants of the string `false`. -/
def falseVariants : List String :=
  ["false", "falsE", "falSe", "falSE", "faLse", "faLsE", "faLSe", "faLSE",
   "fAlse", "fAlsE", "fAlSe", "fAlSE", "fALse", "fALsE", "fALSe", "fALSE",
   "False", "FalsE", "FalSe", "FalSE", "FaLse", "FaLsE", "FaLSe", "FaLSE",
   "FAlse", "FAlsE", "FAlSe", "FAlSE", "FALse", "FALsE", "FALSe", "FALSE"]

/-- C9 (amended): `toBoolean` is total and deterministic; a boolean input
passes through; a non-NaN `parseInt` of the stringified input decides by
`> 0` (so "0" and negative numeric strings give false); a non-string input
that fails `parseInt` gives the default value; any case-variant of
true/false gives that boolean; and every other string is lowercased and
JSON-parsed, the parsed value being returned as-is when parsing succeeds
(possibly a non-boolean) and the default value when it fails. -/
theorem TypeConverters.toBoolean_spec :
    (∀ (b : Bool) (d : Option Bool),
      TypeConverters.toBoolean (JSValue.bool b) d = JSValue.bool b)
    ∧ (∀ (v : JSValue) (d : Option Bool) (n : Int),
        (∀ b, v ≠ JSValue.bool b) →
        parseIntJS (jsToString v) = some n →
        TypeConverters.toBoolean v d = JSValue.bool (decide (0 < n)))
    ∧ (∀ d : Option Bool,
        TypeConverters.toBoolean (JSValue.str "0") d = JSValue.bool false
        ∧ TypeConverters.toBoolean (JSValue.str "-7") d = JSValue.bool false)
    ∧ (∀ (v : JSValue) (d : Option Bool),
        (∀ b, v ≠ JSValue.bool b) → (∀ s, v ≠ JSValue.str s) →
        parseIntJS (jsToString v) = none →
        TypeConverters.toBoolean v d = JSValue.bool (d.getD false))
    ∧ (∀ d : Option Bool,
        (∀ s ∈ trueVariants,
          TypeConverters.toBoolean (JSValue.str s) d = JSValue.bool true)
        ∧ (∀ s ∈ falseVariants,
          TypeConverters.toBoolean (JSValue.str s) d = JSValue.bool false))
    ∧ (∀ (s : String) (d : Option Bool),
        parseIntJS s = none →
        TypeConverters.toBoolean (JSValue.str s) d =
          (jsonParse (lowerStr s)).getD (JSValue.bool (d.getD false))) := by
  refine ⟨fun b d => rfl, ?_, fun d => ⟨rfl, rfl⟩, ?_, ?_, ?_⟩
  · intro v d n hnb h
    cases v with
    | bool b => exact absurd rfl (hnb b)
    | num m => simp [TypeConverters.toBoolean, h]
    | str s => simp [TypeConverters.toBoolean, h]
    | null => simp [TypeConverters.toBoolean, h]
    | undefined => simp [TypeConverters.toBoolean, h]
    | arr xs => simp [TypeConverters.toBoolean, h]
    | obj fs => simp [TypeConverters.toBoolean, h]
  · intro v d hnb hns h
    cases v with
    | bool b => exact absurd rfl (hnb b)
    | str s => exact absurd rfl (hns s)
    | num m => simp [TypeConverters.toBoolean, h]
    | null => simp [TypeConverters.toBoolean, h]
    | undefined => simp [TypeConverters.toBoolean, h]
    | arr xs => simp [TypeConverters.toBoolean, h]
    | obj fs => simp [TypeConverters.toBoolean, h]
  · intro d
    constructor
    · intro s hs
      fin_cases hs <;> rfl
    · intro s hs
      fin_cases hs <;> rfl
  · intro s d h
    have hs : jsToString (JSValue.str s) = s := rfl
    rcases hj : jsonParse (lowerStr s) with _ | j <;>
      simp [TypeConverters.toBoolean, hs, h, hj]

/-- Witness for C9 at concrete inputs: a numeric value, a non-string
NaN case, a case-variant of true, and an unparseable string. -/
theorem TypeConverters.toBoolean_spec_witness :
    parseIntJS (jsToString (JSValue.num 3)) = some 3 ∧
    TypeConverters.toBoolean (JSValue.num 3) none = JSValue.bool true ∧
    TypeConverters.toBoolean JSValue.null (some true) = JSValue.bool true ∧
    TypeConverters.toBoolean (JSValue.str "TRUE") none = JSValue.bool true ∧
    TypeConverters.toBoolean (JSValue.str "nonsense") none = JSValue.bool false :=
  ⟨rfl,
    TypeConverters.toBoolean_spec.2.1 (JSValue.num 3) none 3
      (fun b => by simp) rfl,
    TypeConverters.toBoolean_spec.2.2.2.1 JSValue.null (some true)
      (fun b => by simp) (fun s => by simp) rfl,
    (TypeConverters.toBoolean_spec.2.2.2.2.1 none).1 "TRUE" (by decide),
    TypeConverters.toBoolean_spec.2.2.2.2.2 "nonsense" none rfl⟩

/-- C9 counterexample: the claim says every string that is not a numeric
string nor a case-variant of true/false yields the default value, but
`toBoolean("null")` with no default returns the JSON value `null`, which is
not the boolean `false`. -/
theorem TypeConverters.toBoolean_null_not_default :
    TypeConverters.toBoolean (JSValue.str "null") none = JSValue.null ∧
    JSValue.null ≠ JSValue.bool false :=
  ⟨rfl, by simp⟩
